import Mathlib

/-!
# Verification of the plexamp-tui event core

A shallow embedding of the parts of the plexamp-tui repository that the
specification's testable properties talk about:

* the Bubble Tea `Update` dispatcher of `main.go` (player/server selection,
  stale-poll gating, fetched-message routing),
* the playback-URL shuffle transform and local-dispatch rewrite of
  `plex_playback_url.go`,
* the playback-affecting commands `setVolume`, `sendCommand` and
  `triggerPlaybackCmd` of `main.go`,
* the SQLite-backed favorites upsert of `internal/config/favorites.go`.

Go machine integers are modelled as `Int` (no arithmetic in the modelled
code ever overflows), Go strings as Lean `String` (the modelled code only
ever manipulates ASCII), `time.Time` as a millisecond timestamp `Nat`, Go
`error` values as `Option String` holding the message text, and a Go
runtime panic as the `none` case of an `Option` result.
-/

/-! ## Go `strings.Replace(s, old, new, 1)`

`SendPlaybackURL` (plex_playback_url.go) and `triggerPlayback` (playback.go)
rewrite the control-plane host with `strings.Replace(s, old, new, 1)`, which
replaces the **first** occurrence of `old` anywhere in `s` (and when
`old = ""` inserts `new` in front).  Lean's `String.replace` replaces all
occurrences, so we model the Go function directly on character lists
(Go operates on bytes; every string involved is ASCII, where bytes and
characters coincide). -/

/-- `startsWithL s pat` is true when `pat` is a leading segment of `s`. -/
def startsWithL : List Char → List Char → Bool
  | _, [] => true
  | [], _ :: _ => false
  | c :: s, d :: t => c == d && startsWithL s t

/-- `containsSubL pat s` is true when `pat` occurs as a contiguous segment of
`s` (the leftmost-match search Go's `strings.Index` performs). -/
def containsSubL (pat : List Char) : List Char → Bool
  | [] => startsWithL [] pat
  | c :: s => startsWithL (c :: s) pat || containsSubL pat s

/-- Go `strings.Replace(s, old, new, 1)` on character lists: replace the
leftmost occurrence of `old` by `new`, leave `s` unchanged when `old` does
not occur. -/
def replaceOnce (old new : List Char) : List Char → List Char
  | [] => if startsWithL [] old then new else []
  | c :: s =>
    if startsWithL (c :: s) old then new ++ (c :: s).drop old.length
    else c :: replaceOnce old new s

/-- Go `strings.Replace(s, old, new, 1)` on strings. -/
def goReplaceOnce (s old new : String) : String :=
  ⟨replaceOnce old.data new.data s.data⟩

/-- String-level occurrence test, matching `containsSubL`. -/
def containsSubStr (pat s : String) : Bool :=
  containsSubL pat.data s.data

/-! ## The local-dispatch rewrite (plex_playback_url.go, `SendPlaybackURL`)

```go
localURL := strings.Replace(modifiedURL, "https://listen.plex.tv", fmt.Sprintf("http://%s:32500", serverIP), 1)
localURL = strings.Replace(localURL, "http://listen.plex.tv", fmt.Sprintf("http://%s:32500", serverIP), 1)
```
(`triggerPlayback` in playback.go performs the identical two replacements.) -/

/-- The host rewrite of `SendPlaybackURL`: substitute the first occurrence of
the https control-plane host string, then the first occurrence of the http
variant, by `http://{serverIP}:32500`. -/
def rewriteLocal (serverIP modifiedURL : String) : String :=
  let localURL := goReplaceOnce modifiedURL "https://listen.plex.tv"
      ("http://" ++ serverIP ++ ":32500")
  goReplaceOnce localURL "http://listen.plex.tv"
      ("http://" ++ serverIP ++ ":32500")

/-! ## Lemmas about `replaceOnce` -/

theorem startsWithL_append (p r : List Char) : startsWithL (p ++ r) p = true := by
  induction p with
  | nil => cases r <;> rfl
  | cons c p ih => simp [startsWithL, ih]

theorem replaceOnce_of_startsWith (old new s : List Char)
    (h : startsWithL s old = true) :
    replaceOnce old new s = new ++ s.drop old.length := by
  cases s with
  | nil =>
    cases old with
    | nil => simp [replaceOnce, startsWithL]
    | cons d t => simp [startsWithL] at h
  | cons c s => simp [replaceOnce, h]

theorem replaceOnce_append (old new r : List Char) :
    replaceOnce old new (old ++ r) = new ++ r := by
  rw [replaceOnce_of_startsWith old new (old ++ r) (startsWithL_append old r)]
  simp

theorem replaceOnce_of_not_contains (old new : List Char) (s : List Char)
    (h : containsSubL old s = false) :
    replaceOnce old new s = s := by
  induction s with
  | nil =>
    simp only [containsSubL] at h
    simp [replaceOnce, h]
  | cons c s ih =>
    simp only [containsSubL, Bool.or_eq_false_iff] at h
    simp [replaceOnce, h.1, ih h.2]

theorem goReplaceOnce_append (old new r : String) :
    goReplaceOnce (old ++ r) old new = new ++ r := by
  simp only [goReplaceOnce, String.data_append]
  rw [replaceOnce_append]
  apply String.ext
  simp [String.data_append]

theorem goReplaceOnce_of_not_contains (s old new : String)
    (h : containsSubStr old s = false) :
    goReplaceOnce s old new = s := by
  simp only [goReplaceOnce, containsSubStr] at *
  rw [replaceOnce_of_not_contains old.data new.data s.data h]

/-! ## Query values and the shuffle transform (plex_playback_url.go, `ApplyShuffle`)

```go
func ApplyShuffle(urlStr string, shuffle bool) (string, error) {
    u, err := url.Parse(urlStr)
    if err != nil { return urlStr, err }
    q := u.Query()
    if shuffle { q.Set("shuffle", "1") } else { q.Del("shuffle") }
    u.RawQuery = q.Encode()
    return u.String(), nil
}
```

The query string is modelled at the level of its decoded `(key, value)`
pairs (percent-escaping is a bijection `QueryEscape`/`QueryUnescape`, so a
round trip through it is the identity and is elided):

* `u.Query()` builds `url.Values`, a map from each key to its values in
  order of appearance — modelled by `toValues` (Go map iteration order is
  immaterial: the only observation of the map is `Encode`, which sorts).
* `Values.Set(k, v)` replaces the key's value slice by `[v]`, inserting the
  key when absent — modelled by `setVal`.
* `Values.Del(k)` removes the key — modelled by `delVal`.
* `Values.Encode()` emits `k=v` pairs with keys in sorted order, values of
  a key in slice order — modelled by `encodeVals`.
-/

/-- A query string as its ordered, decoded `(key, value)` pairs. -/
abbrev QueryPairs := List (String × String)

/-- A `url.Values` map as an association list from key to value slice. -/
abbrev ValuesMap := List (String × List String)

/-- The values of key `k`, in order of appearance — `url.Values`'s slice
for `k` as built by `ParseQuery`'s per-key appends. -/
def valuesOf (q : QueryPairs) (k : String) : List String :=
  (q.filter (fun p => p.1 == k)).map Prod.snd

/-- `u.Query()`: the `url.Values` map of a pair list — one entry per
distinct key, carrying that key's values in order. -/
def toValues (q : QueryPairs) : ValuesMap :=
  ((q.map Prod.fst).dedup).map (fun k => (k, valuesOf q k))

/-- `url.Values.Set(k, v)`: replace `k`'s value slice by `[v]`, inserting
`k` when absent. -/
def setVal : ValuesMap → String → String → ValuesMap
  | [], k, v => [(k, [v])]
  | e :: rest, k, v =>
    if e.1 = k then (k, [v]) :: rest else e :: setVal rest k v

/-- `url.Values.Del(k)`: drop the entry for `k`. -/
def delVal (vs : ValuesMap) (k : String) : ValuesMap :=
  vs.filter (fun e => !(e.1 == k))

/-- Emit every `(key, value)` pair of a values map, entry by entry. -/
def flattenVals (vs : ValuesMap) : QueryPairs :=
  vs.flatMap (fun e => e.2.map (fun v => (e.1, v)))

/-- `url.Values.Encode()`: keys in sorted order, each key's values in slice
order (escaping elided as explained above). -/
def encodeVals (vs : ValuesMap) : QueryPairs :=
  flattenVals (List.insertionSort (fun a b => a.1 ≤ b.1) vs)

/-- The query-level effect of `ApplyShuffle`: parse into `url.Values`,
set `shuffle=1` or delete the `shuffle` key, re-encode. -/
def applyShuffleQuery (q : QueryPairs) (shuffle : Bool) : QueryPairs :=
  encodeVals (if shuffle then setVal (toValues q) "shuffle" "1"
              else delVal (toValues q) "shuffle")

/-- A parsed URL as `ApplyShuffle` observes it: scheme, host, path and the
decoded query pairs. -/
structure GoURL where
  scheme : String
  host : String
  path : String
  query : QueryPairs
deriving DecidableEq, Repr

/-- `ApplyShuffle` on an already-parsed URL: only the query changes. -/
def ApplyShuffle (u : GoURL) (shuffle : Bool) : GoURL :=
  { u with query := applyShuffleQuery u.query shuffle }

/-! ## Lemmas about the query model -/

theorem flattenVals_append (a b : ValuesMap) :
    flattenVals (a ++ b) = flattenVals a ++ flattenVals b := by
  simp [flattenVals]

theorem mem_flattenVals {p : String × String} {vs : ValuesMap} :
    p ∈ flattenVals vs ↔ ∃ l, (p.1, l) ∈ vs ∧ p.2 ∈ l := by
  constructor
  · intro h
    simp only [flattenVals, List.mem_flatMap, List.mem_map] at h
    obtain ⟨e, he, v, hv, hp⟩ := h
    exact ⟨e.2, by rw [← hp]; exact he, by rw [← hp]; exact hv⟩
  · rintro ⟨l, hl, hv⟩
    simp only [flattenVals, List.mem_flatMap, List.mem_map]
    exact ⟨(p.1, l), hl, p.2, hv, rfl⟩

theorem flattenVals_delVal (vs : ValuesMap) (k : String) :
    flattenVals (delVal vs k) = (flattenVals vs).filter (fun p => !(p.1 == k)) := by
  induction vs with
  | nil => rfl
  | cons e rest ih =>
    have hblock : ∀ (key : String) (l : List String),
        (l.map (fun v => (key, v))).filter (fun p => !(p.1 == k))
          = if key = k then [] else l.map (fun v => (key, v)) := by
      intro key l
      by_cases hk : key = k
      · simp [hk, List.filter_eq_nil_iff]
      · rw [if_neg hk, List.filter_eq_self.2]
        intro p hp
        obtain ⟨x, _, hx⟩ := List.mem_map.1 hp
        simp [← hx, hk]
    by_cases h : e.1 = k
    · have hd : delVal (e :: rest) k = delVal rest k := by
        simp [delVal, List.filter_cons, h]
      rw [hd, ih]
      simp only [flattenVals, List.flatMap_cons, List.filter_append, hblock, if_pos h,
        List.nil_append]
    · have hd : delVal (e :: rest) k = e :: delVal rest k := by
        simp [delVal, List.filter_cons, h]
      rw [hd]
      simp only [flattenVals, List.flatMap_cons, List.filter_append, hblock, if_neg h]
      simp only [flattenVals] at ih
      rw [ih]

theorem filter_ne_flattenVals_setVal (vs : ValuesMap) (k v : String) :
    (flattenVals (setVal vs k v)).filter (fun p => !(p.1 == k))
      = (flattenVals vs).filter (fun p => !(p.1 == k)) := by
  induction vs with
  | nil =>
    simp [setVal, flattenVals]
  | cons e rest ih =>
    by_cases h : e.1 = k
    · simp only [setVal, if_pos h, flattenVals, List.flatMap_cons, List.filter_append]
      congr 1
      · subst h
        rw [List.filter_eq_nil_iff.2, List.filter_eq_nil_iff.2] <;>
          · intro p hp
            simp only [List.mem_map] at hp
            obtain ⟨x, _, hx⟩ := hp
            simp [← hx]
    · simp only [setVal, if_neg h, flattenVals, List.flatMap_cons, List.filter_append]
      simp only [flattenVals] at ih
      rw [ih]

theorem filter_eq_flattenVals_of_not_mem (vs : ValuesMap) (k : String)
    (h : k ∉ vs.map Prod.fst) :
    (flattenVals vs).filter (fun p => p.1 == k) = [] := by
  rw [List.filter_eq_nil_iff]
  intro p hp hk
  rw [mem_flattenVals] at hp
  obtain ⟨l, hl, _⟩ := hp
  have hm : p.1 ∈ vs.map Prod.fst := List.mem_map.2 ⟨(p.1, l), hl, rfl⟩
  rw [show p.1 = k by simpa using hk] at hm
  exact h hm

theorem filter_eq_flattenVals_setVal (vs : ValuesMap) (k v : String)
    (hnd : (vs.map Prod.fst).Nodup) :
    (flattenVals (setVal vs k v)).filter (fun p => p.1 == k) = [(k, v)] := by
  induction vs with
  | nil => simp [setVal, flattenVals]
  | cons e rest ih =>
    simp only [List.map_cons, List.nodup_cons] at hnd
    by_cases h : e.1 = k
    · simp only [setVal, if_pos h, flattenVals, List.flatMap_cons, List.filter_append]
      have hrest := filter_eq_flattenVals_of_not_mem rest k (h ▸ hnd.1)
      simp only [flattenVals] at hrest
      rw [hrest]
      simp
    · simp only [setVal, if_neg h, flattenVals, List.flatMap_cons, List.filter_append]
      rw [List.filter_eq_nil_iff.2 (by
        intro p hp
        simp only [List.mem_map] at hp
        obtain ⟨x, _, hx⟩ := hp
        simp [← hx, h])]
      simp only [flattenVals] at ih
      rw [ih hnd.2, List.nil_append]

theorem mem_setVal_self {vs : ValuesMap} {k v : String} {l : List String}
    (hnd : (vs.map Prod.fst).Nodup) (h : (k, l) ∈ setVal vs k v) : l = [v] := by
  induction vs with
  | nil => simpa [setVal] using h
  | cons e rest ih =>
    simp only [List.map_cons, List.nodup_cons] at hnd
    by_cases he : e.1 = k
    · simp only [setVal, if_pos he, List.mem_cons] at h
      rcases h with h | h
      · exact (Prod.ext_iff.1 h).2
      · exact absurd (List.mem_map.2 ⟨(k, l), h, rfl⟩) (he ▸ hnd.1)
    · simp only [setVal, if_neg he, List.mem_cons] at h
      rcases h with h | h
      · exact absurd (congrArg Prod.fst h).symm he
      · exact ih hnd.2 h

theorem map_valuesOf_eq_filter (q : QueryPairs) (x : String) :
    (valuesOf q x).map (fun v => (x, v)) = q.filter (fun p => p.1 == x) := by
  induction q with
  | nil => rfl
  | cons p q ih =>
    by_cases h : p.1 = x
    · have hp : (x, p.2) = p := by
        cases p
        simp_all
      have h1 : valuesOf (p :: q) x = p.2 :: valuesOf q x := by
        simp [valuesOf, List.filter_cons, h]
      have h2 : (p :: q).filter (fun r => r.1 == x) = p :: q.filter (fun r => r.1 == x) := by
        simp [List.filter_cons, h]
      rw [h1, h2, List.map_cons, ih, hp]
    · have h1 : valuesOf (p :: q) x = valuesOf q x := by
        simp [valuesOf, List.filter_cons, h]
      have h2 : (p :: q).filter (fun r => r.1 == x) = q.filter (fun r => r.1 == x) := by
        simp [List.filter_cons, h]
      rw [h1, h2, ih]

theorem flattenVals_map_keys (q : QueryPairs) (keys : List String) :
    flattenVals (keys.map (fun x => (x, valuesOf q x)))
      = keys.flatMap (fun x => q.filter (fun p => p.1 == x)) := by
  induction keys with
  | nil => rfl
  | cons x keys ih =>
    simp only [List.map_cons, flattenVals, List.flatMap_cons] at ih ⊢
    rw [map_valuesOf_eq_filter, ih]

theorem flatMap_congr_mem {α β : Type} {l : List α} {f g : α → List β}
    (h : ∀ a ∈ l, f a = g a) : l.flatMap f = l.flatMap g := by
  induction l with
  | nil => rfl
  | cons a l ih =>
    simp only [List.flatMap_cons]
    rw [h a (by simp), ih (fun b hb => h b (by simp [hb]))]

theorem flatMap_filter_keys_perm (q : QueryPairs) (keys : List String)
    (hnd : keys.Nodup) (hcov : ∀ p ∈ q, p.1 ∈ keys) :
    (keys.flatMap (fun x => q.filter (fun p => p.1 == x))).Perm q := by
  induction keys generalizing q with
  | nil =>
    cases q with
    | nil => rfl
    | cons p q => exact absurd (hcov p (List.mem_cons_self p q)) (List.not_mem_nil _)
  | cons x keys ih =>
    simp only [List.nodup_cons] at hnd
    rw [List.flatMap_cons]
    have hyx : ∀ y, y ≠ x →
        (q.filter (fun p => !(p.1 == x))).filter (fun p => p.1 == y)
          = q.filter (fun p => p.1 == y) := by
      intro y hy
      rw [List.filter_filter]
      apply List.filter_congr
      intro p _
      by_cases hp : p.1 = y
      · simp [hp, hy]
      · simp [hp]
    have hcongr : keys.flatMap (fun y => q.filter (fun p => p.1 == y))
        = keys.flatMap (fun y =>
            (q.filter (fun p => !(p.1 == x))).filter (fun p => p.1 == y)) :=
      flatMap_congr_mem (fun y hy => (hyx y (fun hc => hnd.1 (hc ▸ hy))).symm)
    have hcov2 : ∀ p ∈ q.filter (fun p => !(p.1 == x)), p.1 ∈ keys := by
      intro p hp
      rw [List.mem_filter] at hp
      rcases hcov p hp.1 with hmem
      rcases List.mem_cons.1 hmem with h | h
      · exact absurd h (by simpa using hp.2)
      · exact h
    refine (List.Perm.append_left _ ?_).trans (List.filter_append_perm _ q)
    rw [hcongr]
    exact ih _ hnd.2 hcov2

theorem flattenVals_toValues_perm (q : QueryPairs) :
    (flattenVals (toValues q)).Perm q := by
  rw [show toValues q = ((q.map Prod.fst).dedup).map (fun x => (x, valuesOf q x)) from rfl,
    flattenVals_map_keys]
  exact flatMap_filter_keys_perm q _ (List.nodup_dedup _)
    (fun p hp => List.mem_dedup.2 (List.mem_map.2 ⟨p, hp, rfl⟩))

theorem nodupKeys_toValues (q : QueryPairs) : ((toValues q).map Prod.fst).Nodup := by
  rw [toValues, List.map_map]
  simpa [Function.comp_def] using List.nodup_dedup (q.map Prod.fst)

theorem encodeVals_perm (vs : ValuesMap) : (encodeVals vs).Perm (flattenVals vs) := by
  unfold encodeVals flattenVals
  exact (List.perm_insertionSort _ vs).flatMap_right _

theorem applyShuffleQuery_false_perm (q : QueryPairs) :
    (applyShuffleQuery q false).Perm
      (q.filter (fun p => !(p.1 == "shuffle"))) := by
  have h : applyShuffleQuery q false = encodeVals (delVal (toValues q) "shuffle") := rfl
  rw [h]
  refine (encodeVals_perm _).trans ?_
  rw [flattenVals_delVal]
  exact (flattenVals_toValues_perm q).filter _

theorem applyShuffleQuery_true_filter_ne_perm (q : QueryPairs) :
    ((applyShuffleQuery q true).filter (fun p => !(p.1 == "shuffle"))).Perm
      (q.filter (fun p => !(p.1 == "shuffle"))) := by
  have h : applyShuffleQuery q true = encodeVals (setVal (toValues q) "shuffle" "1") := rfl
  rw [h]
  refine ((encodeVals_perm _).filter _).trans ?_
  rw [filter_ne_flattenVals_setVal]
  exact (flattenVals_toValues_perm q).filter _

/-! ## `ApplyShuffle` on raw strings, and `SendPlaybackURL` (plex_playback_url.go)

`url.Parse` is Go standard-library code, external to this repository;
`ApplyShuffle` only observes whether it returns an error, so the parser is
passed in as a function returning `none` exactly when `url.Parse` errors.
`u.String()` re-serialises the parsed URL. -/

/-- `u.String()` for the URLs `ApplyShuffle` produces: scheme, host, path,
then the encoded query (escaping elided, as above). -/
def printURL (u : GoURL) : String :=
  u.scheme ++ "://" ++ u.host ++ u.path ++
    (match u.query with
     | [] => ""
     | ps => "?" ++ String.intercalate "&" (ps.map (fun p => p.1 ++ "=" ++ p.2)))

/-- `ApplyShuffle(urlStr, shuffle)` on the raw string: on a parse error the
original string is returned together with the error (`true` in the second
component means an error was returned). -/
def applyShuffleStr (parse : String → Option GoURL) (urlStr : String)
    (shuffle : Bool) : String × Bool :=
  match parse urlStr with
  | none => (urlStr, true)
  | some u => (printURL (ApplyShuffle u shuffle), false)

/-- The URL `SendPlaybackURL(serverIP, fullURL, shuffle)` issues its GET
request to: apply the shuffle transform when it succeeds (keep `fullURL`
when it errors), then rewrite the control-plane host.  The HTTP exchange
itself is external; the function always proceeds to the request — an
unparseable URL never aborts the send. -/
def sendPlaybackRequestURL (parse : String → Option GoURL)
    (serverIP fullURL : String) (shuffle : Bool) : String :=
  let modifiedURL :=
    match applyShuffleStr parse fullURL shuffle with
    | (u, false) => u
    | (_, true) => fullURL
  rewriteLocal serverIP modifiedURL

/-! ## The session state of main.go

The `model` struct of main.go, restricted to the fields the modelled
handlers read or write (purely visual fields — width, height, the five
browse lists other than the album list, the edit sub-state — are omitted;
no modelled handler touches them).  A bubbles `list.Model` is kept as its
items, cursor index and filtering flag; `albumList.Update` on a message the
list component does not know (such as a fetched-albums message) returns the
list unchanged. -/

structure PlexLibrary where
  key : String
  title : String
  type : String
deriving DecidableEq, Repr

/-- The persisted `Config` struct (main.go). -/
structure Config where
  serverID : String
  plexServerAddr : String
  plexServerName : String
  plexLibraryID : String
  selectedPlayer : String
  selectedPlayerName : String
  plexLibraryName : String
  plexLibraries : List PlexLibrary
deriving DecidableEq, Repr

/-- `albumItem` (plex_album_browse.go). -/
structure AlbumItem where
  title : String
  artist : String
  year : String
  ratingKey : String
deriving DecidableEq, Repr

/-- A bubbles list: items, selection cursor, filtering flag. -/
structure AlbumListState where
  items : List AlbumItem
  index : Nat
  filtering : Bool
deriving DecidableEq, Repr

/-- The session state (`model`, main.go). -/
structure Model where
  selected : String
  status : String
  isPlaying : Bool
  lastCommand : String
  currentTrack : String
  volume : Int
  durationMs : Int
  positionMs : Int
  lastUpdate : Nat
  shuffle : Bool
  plexAuthenticated : Bool
  timelineRequestID : Int
  panelMode : String
  config : Config
  albumList : AlbumListState
deriving DecidableEq, Repr

/-- `playerItem` (plex_player_browse.go). -/
structure PlayerItem where
  title : String
  clientIdentifier : String
  address : String
  localFlag : String
  port : String
deriving DecidableEq, Repr

/-- `serverItem` (plex_server_browse.go). -/
structure ServerItem where
  title : String
  clientIdentifier : String
  address : String
  localFlag : String
  port : String
deriving DecidableEq, Repr

/-- `playerSelectMsg` (plex_player_browse.go). -/
structure PlayerSelectMsg where
  success : Bool
  err : Option String
  player : PlayerItem
deriving DecidableEq, Repr

/-- `serverSelectMsg` (plex_server_browse.go). -/
structure ServerSelectMsg where
  success : Bool
  err : Option String
  server : ServerItem
  libraries : List PlexLibrary
deriving DecidableEq, Repr

/-- `trackMsgWithState` (main.go): one poll result, tagged with the request
id (the poll epoch) captured when the poll was issued. -/
structure TrackMsgWithState where
  trackText : String
  isPlaying : Bool
  duration : Int
  position : Int
  volume : Int
  requestID : Int
deriving DecidableEq, Repr

/-- `PlexAlbum` (the fields the album handler reads). -/
structure PlexAlbum where
  ratingKey : String
  title : String
  parentTitle : String
  year : String
deriving DecidableEq, Repr

/-- `albumsFetchedMsg` (plex_album_browse.go). -/
structure AlbumsFetchedMsg where
  albums : List PlexAlbum
  err : Option String
deriving DecidableEq, Repr

/-- The asynchronous messages of main.go's `Update` that the claims
concern.  (The remaining arms of the Go type switch — key events, window
resize, poll ticks, playback-triggered notifications and the other four
fetched-message kinds, which are verbatim copies of the albums arm — are
not needed by any claim.) -/
inductive Msg where
  | playerSelect (ps : PlayerSelectMsg)
  | serverSelect (ss : ServerSelectMsg)
  | trackWithState (t : TrackMsgWithState)
  | albumsFetched (af : AlbumsFetchedMsg)
deriving DecidableEq, Repr

/-- The albums arm of `handleAlbumBrowseUpdate` (plex_album_browse.go):
while the list is filtering the message is handed to the list component,
which does not know this message kind and leaves the list unchanged; on a
fetch error only the status changes; on success the fetched albums replace
the list items, the cursor resets, and the status reports the count. -/
def handleAlbumsFetched (m : Model) (af : AlbumsFetchedMsg) : Model :=
  if m.albumList.filtering then m
  else
    match af.err with
    | some e => { m with status := "Error fetching albums: " ++ e }
    | none =>
      let items := af.albums.map (fun a =>
        { title := a.title, artist := a.parentTitle, year := a.year,
          ratingKey := a.ratingKey : AlbumItem })
      let n := af.albums.length
      { m with
        albumList := { m.albumList with items := items, index := 0 },
        status := s!"Loaded {n} albums" }

/-- The `Update` dispatcher of main.go, restricted to the four modelled
message kinds.  `now` is the millisecond timestamp `time.Now()` would
return.  `none` models a Go runtime panic: the `serverSelectMsg` arm
indexes `msg.libraries[0]` without an emptiness guard. -/
def updateMsg (m : Model) (msg : Msg) (now : Nat) : Option Model :=
  match msg with
  | .playerSelect ps =>
    match ps.err with
    | some e => some { m with status := "Error selecting player: " ++ e }
    | none =>
      if ps.success then
        some { m with
          config := { m.config with
            selectedPlayer := ps.player.address,
            selectedPlayerName := ps.player.title },
          selected := ps.player.address,
          lastCommand := "Player Selected",
          status := "",
          panelMode := "playback" }
      else some m
  | .serverSelect ss =>
    match ss.err with
    | some e => some { m with status := "Error selecting server: " ++ e }
    | none =>
      if ss.success then
        let cfg1 := { m.config with
          serverID := ss.server.clientIdentifier,
          plexServerAddr := ss.server.address ++ ":" ++ ss.server.port,
          plexServerName := ss.server.title,
          plexLibraries := ss.libraries }
        let found := ss.libraries.any (fun lib => lib.title == cfg1.plexLibraryName)
        if found then
          some { m with
            config := cfg1, lastCommand := "Server Selected",
            status := "", panelMode := "playback" }
        else
          match ss.libraries with
          | [] => none
          | l0 :: _ =>
            some { m with
              config := { cfg1 with
                plexLibraryName := l0.title,
                plexLibraryID := l0.key },
              lastCommand := "Server Selected", status := "",
              panelMode := "playback" }
      else some m
  | .trackWithState t =>
    if t.requestID ≠ m.timelineRequestID then some m
    else some { m with
      currentTrack := t.trackText,
      isPlaying := t.isPlaying,
      durationMs := t.duration,
      positionMs := t.position,
      volume := t.volume,
      lastUpdate := now }
  | .albumsFetched af =>
    if m.panelMode = "plex-albums" then some (handleAlbumsFetched m af)
    else some m

/-- The `serverSelectMsg` arm of the parallel `Update` implementation in
internal/ui (plex_client.go): identical to main.go's arm except that an
empty library list is caught before any indexing — panel mode returns to
playback, the status reports that no libraries were found, and the
library fields are left untouched. -/
def updateServerSelectUi (m : Model) (ss : ServerSelectMsg) : Model :=
  match ss.err with
  | some e => { m with status := "Error selecting server: " ++ e }
  | none =>
    if ss.success then
      let cfg1 := { m.config with
        serverID := ss.server.clientIdentifier,
        plexServerAddr := ss.server.address ++ ":" ++ ss.server.port,
        plexServerName := ss.server.title,
        plexLibraries := ss.libraries }
      if ss.libraries.isEmpty then
        { m with
          config := cfg1, panelMode := "playback",
          lastCommand := "Server Selected Failed, No Libraries",
          status := "No libraries found on this server" }
      else
        let found := ss.libraries.any (fun lib => lib.title == cfg1.plexLibraryName)
        if found then
          { m with
            config := cfg1, lastCommand := "Server Selected",
            status := "", panelMode := "playback" }
        else
          match ss.libraries with
          | [] => m
          | l0 :: _ =>
            { m with
              config := { cfg1 with
                plexLibraryName := l0.title,
                plexLibraryID := l0.key },
              lastCommand := "Server Selected", status := "",
              panelMode := "playback" }
    else m

/-! ## Playback-affecting commands (main.go)

Each returns the next model together with the HTTP request the command
issues, `none` when no request is made.  For `sendCommand` the status a
detached goroutine writes after its request completes is not part of the
synchronous handling and is not modelled. -/

/-- `setVolume` (main.go): with no player selected it returns at once —
no request, no status, no error. -/
def setVolume (m : Model) (v : Int) : Model × Option String :=
  if m.selected = "" then (m, none)
  else ({ m with volume := v },
    some ("http://" ++ m.selected
      ++ ":32500/player/playback/setParameters?volume=" ++ toString v
      ++ "&commandID=1&type=music"))

/-- `sendCommand` (main.go): with no player selected it sets an explicit
status and makes no request; otherwise it issues the player request. -/
def sendCommand (m : Model) (path : String) : Model × Option String :=
  if m.selected = "" then
    ({ m with status := "No Plexamp instance selected" }, none)
  else (m, some ("http://" ++ m.selected ++ ":32500/player/" ++ path))

/-- What `triggerPlaybackCmd` (main.go) returns: either a command that
resolves immediately to a failure message, or a deferred
`SendPlaybackURL(serverIP, fullURL, shuffle)` call. -/
inductive TriggerCmd where
  | immediateFailure (errText : String)
  | deferredSend (serverIP fullURL : String) (shuffle : Bool)
deriving DecidableEq, Repr

/-- `triggerPlaybackCmd` (main.go): with no player selected the returned
command resolves immediately to `playbackTriggeredMsg{success: false,
err: "no server selected"}` without any HTTP call. -/
def triggerPlaybackCmd (m : Model) (fullURL : String) : TriggerCmd :=
  if m.selected = "" then .immediateFailure "no server selected"
  else .deferredSend m.selected fullURL m.shuffle

/-! ## The favorites upsert (internal/config/favorites.go)

```go
func (fm *FavoritesManager) Add(item FavoriteItem) error {
    _, err := fm.db.DB.Exec(`
        INSERT INTO favorites (name, type, metadata_key)
        VALUES (?, ?, ?)
        ON CONFLICT(type, metadata_key) DO UPDATE SET name = excluded.name
    `, item.Name, item.Type, item.MetadataKey)
    return err
}
```

The favorites table (internal/database/database.go, constraint
`UNIQUE(type, metadata_key)`) is modelled as the list of its rows in
insertion order; the `id` and `created_at` columns are omitted (no claim
observes them).  The upsert updates the matching row's name when the
`(type, metadata_key)` pair is present, otherwise appends a fresh row. -/

/-- One row of the `favorites` table. -/
structure FavoriteRow where
  name : String
  type : String
  metadataKey : String
deriving DecidableEq, Repr

/-- Does row `r` carry the unique key `(t, k)`? -/
def sameFavKey (r : FavoriteRow) (t k : String) : Bool :=
  r.type == t && r.metadataKey == k

/-- `FavoritesManager.Add`: SQLite upsert semantics on the row list. -/
def favoritesAdd (table : List FavoriteRow) (it : FavoriteRow) : List FavoriteRow :=
  if table.any (fun r => sameFavKey r it.type it.metadataKey) then
    table.map (fun r =>
      if sameFavKey r it.type it.metadataKey then { r with name := it.name } else r)
  else table ++ [it]

/-! ## Concrete fixtures for witnesses and counterexamples -/

/-- A session state as of startup: playback mode, a configured library,
a selected player, epoch 0. -/
def cfgBase : Config :=
  { serverID := "srv1", plexServerAddr := "10.0.0.2:32400",
    plexServerName := "Srv", plexLibraryID := "15",
    selectedPlayer := "10.0.0.9", selectedPlayerName := "Player",
    plexLibraryName := "Music",
    plexLibraries := [{ key := "15", title := "Music", type := "artist" }] }

def mBase : Model :=
  { selected := "10.0.0.9", status := "", isPlaying := false,
    lastCommand := "", currentTrack := "", volume := 50, durationMs := 0,
    positionMs := 0, lastUpdate := 0, shuffle := true,
    plexAuthenticated := true, timelineRequestID := 0,
    panelMode := "playback", config := cfgBase,
    albumList := { items := [], index := 0, filtering := false } }

def mNoPlayer : Model := { mBase with selected := "" }

def psW : PlayerSelectMsg :=
  { success := true, err := none,
    player := { title := "Kitchen", clientIdentifier := "cid-7",
                address := "10.0.0.7", localFlag := "1", port := "32500" } }

def afW : AlbumsFetchedMsg :=
  { albums := [{ ratingKey := "42", title := "Abbey Road",
                 parentTitle := "The Beatles", year := "1969" }],
    err := none }

def ssEmpty : ServerSelectMsg :=
  { success := true, err := none,
    server := { title := "NAS", clientIdentifier := "cid-2",
                address := "10.0.0.3", localFlag := "1", port := "32400" },
    libraries := [] }

/-! ## Claims -/

/-- Claim C1: a poll result (`trackMsgWithState`) is applied to the playback
snapshot (currentTrack, isPlaying, durationMs, positionMs, volume,
lastUpdate) if and only if its epoch (`RequestID`) equals the session's
current `timelineRequestID`; a result carrying any other epoch leaves the
entire session state unchanged and sets no status message. -/
theorem poll_result_epoch_gating (m : Model) (t : TrackMsgWithState) (now : Nat) :
    (t.requestID ≠ m.timelineRequestID → updateMsg m (.trackWithState t) now = some m)
    ∧ (t.requestID = m.timelineRequestID →
        updateMsg m (.trackWithState t) now = some { m with
          currentTrack := t.trackText, isPlaying := t.isPlaying,
          durationMs := t.duration, positionMs := t.position,
          volume := t.volume, lastUpdate := now }) := by
  constructor
  · intro h
    simp [updateMsg, h]
  · intro h
    simp [updateMsg, h]

/-- A stale poll result: epoch tag 7 against current epoch 0. -/
def tStale : TrackMsgWithState :=
  { trackText := "B - T (A)", isPlaying := true, duration := 180000,
    position := 1000, volume := 40, requestID := 7 }

/-- The same poll result tagged with the current epoch 0. -/
def tCurrent : TrackMsgWithState :=
  { trackText := "B - T (A)", isPlaying := true, duration := 180000,
    position := 1000, volume := 40, requestID := 0 }

/-- Witness for C1: at epoch 0 a result tagged 7 is discarded wholesale and
a result tagged 0 is applied. -/
theorem poll_result_epoch_gating_witness :
    updateMsg mBase (.trackWithState tStale) 5 = some mBase
    ∧ updateMsg mBase (.trackWithState tCurrent) 5
        = some { mBase with
            currentTrack := "B - T (A)", isPlaying := true, durationMs := 180000,
            positionMs := 1000, volume := 40, lastUpdate := 5 } :=
  ⟨(poll_result_epoch_gating mBase tStale 5).1 (by decide),
   (poll_result_epoch_gating mBase tCurrent 5).2 (by decide)⟩

/-- Claim C2 concerns an increment that does not exist in the code:
handling any player-selection message — the error case, the success case
that updates `selectedPlayerAddress`, and the no-op case alike — leaves
`timelineRequestID` exactly unchanged.  `timelineRequestID` is read when a
poll is issued and compared when a result arrives, but no statement in the
program ever increments it, so after a successful player selection the
epoch is equal to, not strictly greater than, its previous value. -/
theorem playerSelect_epoch_never_incremented (m : Model) (ps : PlayerSelectMsg) (now : Nat) :
    (updateMsg m (.playerSelect ps) now).map Model.timelineRequestID
      = some m.timelineRequestID := by
  match hE : ps.err with
  | some e => simp [updateMsg, hE]
  | none =>
    by_cases hs : ps.success <;> simp [updateMsg, hE, hs]

/-- Claim C3 is false on the code: a fetched-albums message that arrives
while the active panel mode is playback is discarded entirely — the album
list does not receive the delivered data (here: the one fetched album),
so switching to the albums mode cannot show it. -/
theorem fetched_albums_inactive_mode_not_applied :
    ¬ ((updateMsg mBase (.albumsFetched afW) 0).map (fun m => m.albumList.items)
        = some [{ title := "Abbey Road", artist := "The Beatles", year := "1969",
                  ratingKey := "42" }]) := by
  decide

/-- Claim C3 amended: a fetched-albums message arriving while the active
panel mode is any other mode leaves the whole session state unchanged (the
active mode's list intact, no crash) — the message is discarded, not
applied to the inactive albums list. -/
theorem fetched_albums_inactive_mode_discarded (m : Model) (af : AlbumsFetchedMsg)
    (now : Nat) (h : m.panelMode ≠ "plex-albums") :
    updateMsg m (.albumsFetched af) now = some m := by
  simp [updateMsg, h]

/-- Witness for the amended C3: the playback-mode session discards the
fetched-albums message. -/
theorem fetched_albums_inactive_mode_discarded_witness :
    updateMsg mBase (.albumsFetched afW) 0 = some mBase :=
  fetched_albums_inactive_mode_discarded mBase afW 0 (by decide)

/-- Claim C4 against the code: main.go's `serverSelectMsg` arm indexes
`msg.libraries[0]` whenever the configured library title is not found, so a
successful selection carrying an empty library list panics (modelled as
`none`); the parallel internal/ui arm (`updateServerSelectUi`) implements
the claimed behavior — panel mode back to playback, a "no libraries found"
status, and library id and name untouched. -/
theorem serverSelect_empty_libraries_divergence :
    updateMsg mBase (.serverSelect ssEmpty) 0 = none
    ∧ (updateServerSelectUi mBase ssEmpty).panelMode = "playback"
    ∧ (updateServerSelectUi mBase ssEmpty).status = "No libraries found on this server"
    ∧ (updateServerSelectUi mBase ssEmpty).config.plexLibraryID
        = mBase.config.plexLibraryID
    ∧ (updateServerSelectUi mBase ssEmpty).config.plexLibraryName
        = mBase.config.plexLibraryName :=
  ⟨rfl, rfl, rfl, rfl, rfl⟩

/-- Claim C5 is false on the code: `setVolume` with no player selected
silently no-ops — it makes no request, changes nothing, and sets no error
status (the status stays empty). -/
theorem setVolume_no_player_silently_noops :
    setVolume mNoPlayer 50 = (mNoPlayer, none)
    ∧ (setVolume mNoPlayer 50).1.status = ""
    ∧ mNoPlayer.selected = "" :=
  ⟨rfl, rfl, rfl⟩

/-- Claim C5 amended: with no player selected, the playback trigger fails
fast with "no server selected" and transport commands set the explicit "No
Plexamp instance selected" status, both without any HTTP request; the
volume-set command, however, silently no-ops (no request, no error). -/
theorem no_player_commands_fail_fast (m : Model) (url path : String) (v : Int)
    (h : m.selected = "") :
    triggerPlaybackCmd m url = .immediateFailure "no server selected"
    ∧ sendCommand m path = ({ m with status := "No Plexamp instance selected" }, none)
    ∧ setVolume m v = (m, none) := by
  refine ⟨?_, ?_, ?_⟩ <;> simp [triggerPlaybackCmd, sendCommand, setVolume, h]

/-- Witness for the amended C5. -/
theorem no_player_commands_fail_fast_witness :
    triggerPlaybackCmd mNoPlayer "https://listen.plex.tv/x"
        = .immediateFailure "no server selected"
    ∧ sendCommand mNoPlayer "playback/play"
        = ({ mNoPlayer with status := "No Plexamp instance selected" }, none)
    ∧ setVolume mNoPlayer 40 = (mNoPlayer, none) :=
  no_player_commands_fail_fast mNoPlayer "https://listen.plex.tv/x" "playback/play" 40 rfl

/-- Claim C6: on a successful server selection carrying a non-empty library
list, if no fetched library's title equals the configured library name, the
resolved library (name and id) is the first fetched entry; if some fetched
title matches, the configured library name and id are left unchanged. -/
theorem server_select_library_fallback (m : Model) (ss : ServerSelectMsg) (now : Nat)
    (l0 : PlexLibrary) (rest : List PlexLibrary)
    (hs : ss.success = true) (he : ss.err = none) (hl : ss.libraries = l0 :: rest) :
    ((∀ lib ∈ ss.libraries, lib.title ≠ m.config.plexLibraryName) →
      (updateMsg m (.serverSelect ss) now).map
          (fun m' => (m'.config.plexLibraryName, m'.config.plexLibraryID))
        = some (l0.title, l0.key))
    ∧ ((∃ lib ∈ ss.libraries, lib.title = m.config.plexLibraryName) →
      (updateMsg m (.serverSelect ss) now).map
          (fun m' => (m'.config.plexLibraryName, m'.config.plexLibraryID))
        = some (m.config.plexLibraryName, m.config.plexLibraryID)) := by
  constructor
  · intro habs
    have hany : (l0 :: rest).any (fun lib => lib.title == m.config.plexLibraryName)
        = false := by
      rw [← hl, List.any_eq_false]
      intro lib hmem
      simpa using habs lib hmem
    simp only [updateMsg, he, hs, hl, hany, Bool.false_eq_true, if_false, if_true]
    rfl
  · rintro ⟨lib, hmem, htitle⟩
    have hany : (l0 :: rest).any (fun lib => lib.title == m.config.plexLibraryName)
        = true := by
      rw [← hl]
      exact List.any_eq_true.2 ⟨lib, hmem, by simpa using htitle⟩
    simp only [updateMsg, he, hs, hl, hany, if_true]
    rfl

/-- A selection result whose single library "Jazz" does not carry the
configured name "Music". -/
def ssFallback : ServerSelectMsg :=
  { success := true, err := none,
    server := { title := "NAS", clientIdentifier := "cid-2",
                address := "10.0.0.3", localFlag := "1", port := "32400" },
    libraries := [{ key := "7", title := "Jazz", type := "artist" }] }

/-- A selection result whose library list contains the configured name
"Music" (not in first position). -/
def ssKeep : ServerSelectMsg :=
  { success := true, err := none,
    server := { title := "NAS", clientIdentifier := "cid-2",
                address := "10.0.0.3", localFlag := "1", port := "32400" },
    libraries := [{ key := "20", title := "Classical", type := "artist" },
                  { key := "15", title := "Music", type := "artist" }] }

/-- Witness for C6: "Music" absent falls back to ("Jazz", "7"); "Music"
present keeps ("Music", "15"). -/
theorem server_select_library_fallback_witness :
    (updateMsg mBase (.serverSelect ssFallback) 0).map
        (fun m' => (m'.config.plexLibraryName, m'.config.plexLibraryID))
      = some ("Jazz", "7")
    ∧ (updateMsg mBase (.serverSelect ssKeep) 0).map
        (fun m' => (m'.config.plexLibraryName, m'.config.plexLibraryID))
      = some ("Music", "15") :=
  ⟨(server_select_library_fallback mBase ssFallback 0 _ _ rfl rfl rfl).1 (by decide),
   (server_select_library_fallback mBase ssKeep 0 _ _ rfl rfl rfl).2 (by decide)⟩

/-- Claim C7 is false on the code: the rewrite substitutes the **first**
occurrence of each schemed host string anywhere in the URL, not only the
scheme+host prefix.  For this `http://`-scheme URL whose query mentions the
https host, the query occurrence is rewritten as well (the result is
`http://10.0.0.5:32500/player/playback/playMedia?uri=http://10.0.0.5:32500/x`),
so the output is not the claimed prefix-only rewrite. -/
theorem host_rewrite_not_prefix_only :
    rewriteLocal "10.0.0.5"
        "http://listen.plex.tv/player/playback/playMedia?uri=https://listen.plex.tv/x"
      ≠ "http://10.0.0.5:32500/player/playback/playMedia?uri=https://listen.plex.tv/x" := by
  decide

/-- Claim C7 amended: the rewrite replaces the first occurrence of the
https host string and then the first occurrence of the http host string;
whenever those first occurrences are the URL's own scheme+host prefix and
the rewritten text contains no further occurrence of either schemed host
string, a URL of either scheme whose authority is the control-plane host
maps to exactly `http://{addr}:32500` followed by the original path and
query unchanged. -/
theorem host_rewrite_prefix_exact (ip rest : String)
    (h1 : containsSubStr "http://listen.plex.tv"
            ("http://" ++ ip ++ ":32500" ++ rest) = false)
    (h2 : containsSubStr "https://listen.plex.tv"
            ("http://listen.plex.tv" ++ rest) = false) :
    rewriteLocal ip ("https://listen.plex.tv" ++ rest)
        = "http://" ++ ip ++ ":32500" ++ rest
    ∧ rewriteLocal ip ("http://listen.plex.tv" ++ rest)
        = "http://" ++ ip ++ ":32500" ++ rest := by
  constructor
  · show goReplaceOnce
        (goReplaceOnce ("https://listen.plex.tv" ++ rest) "https://listen.plex.tv"
          ("http://" ++ ip ++ ":32500"))
        "http://listen.plex.tv" ("http://" ++ ip ++ ":32500")
      = "http://" ++ ip ++ ":32500" ++ rest
    rw [goReplaceOnce_append]
    exact goReplaceOnce_of_not_contains _ _ _ h1
  · show goReplaceOnce
        (goReplaceOnce ("http://listen.plex.tv" ++ rest) "https://listen.plex.tv"
          ("http://" ++ ip ++ ":32500"))
        "http://listen.plex.tv" ("http://" ++ ip ++ ":32500")
      = "http://" ++ ip ++ ":32500" ++ rest
    rw [goReplaceOnce_of_not_contains _ _ _ h2, goReplaceOnce_append]

/-- Witness for the amended C7, on the specification's own example: both
scheme variants of `listen.plex.tv/player/playback/playMedia?x=1` rewrite
to `http://192.168.1.50:32500/player/playback/playMedia?x=1`. -/
theorem host_rewrite_prefix_exact_witness :
    rewriteLocal "192.168.1.50" ("https://listen.plex.tv" ++ "/player/playback/playMedia?x=1")
        = "http://" ++ "192.168.1.50" ++ ":32500" ++ "/player/playback/playMedia?x=1"
    ∧ rewriteLocal "192.168.1.50" ("http://listen.plex.tv" ++ "/player/playback/playMedia?x=1")
        = "http://" ++ "192.168.1.50" ++ ":32500" ++ "/player/playback/playMedia?x=1" :=
  host_rewrite_prefix_exact "192.168.1.50" "/player/playback/playMedia?x=1"
    (by decide) (by decide)

/-- Claim C8: for every parsed URL, applying the shuffle transform with
shuffle on and then off yields a query with no `shuffle` parameter and all
other query parameters preserved as a multiset (ordering-insensitive);
applying it twice with shuffle on yields `shuffle=1` exactly once with no
duplicate key; and the transform never emits `shuffle=0`. -/
theorem applyShuffle_roundtrip (u : GoURL) :
    ((ApplyShuffle (ApplyShuffle u true) false).query).Perm
        (u.query.filter (fun p => !(p.1 == "shuffle")))
    ∧ ((ApplyShuffle (ApplyShuffle u true) true).query).filter
        (fun p => p.1 == "shuffle") = [("shuffle", "1")]
    ∧ ∀ b : Bool, ("shuffle", "0") ∉ (ApplyShuffle u b).query := by
  refine ⟨?_, ?_, ?_⟩
  · exact (applyShuffleQuery_false_perm (applyShuffleQuery u.query true)).trans
      (applyShuffleQuery_true_filter_ne_perm u.query)
  · have hq : (ApplyShuffle (ApplyShuffle u true) true).query
        = encodeVals (setVal (toValues (applyShuffleQuery u.query true)) "shuffle" "1") :=
      rfl
    rw [hq]
    have hperm := (encodeVals_perm
      (setVal (toValues (applyShuffleQuery u.query true)) "shuffle" "1")).filter
      (fun p => p.1 == "shuffle")
    rw [filter_eq_flattenVals_setVal _ _ _ (nodupKeys_toValues _)] at hperm
    exact List.perm_singleton.1 hperm
  · intro b hmem
    cases b
    · have hq : (ApplyShuffle u false).query
          = encodeVals (delVal (toValues u.query) "shuffle") := rfl
      rw [hq] at hmem
      have h2 := (encodeVals_perm _).mem_iff.1 hmem
      rw [flattenVals_delVal] at h2
      have h3 := (List.mem_filter.1 h2).2
      simp at h3
    · have hq : (ApplyShuffle u true).query
          = encodeVals (setVal (toValues u.query) "shuffle" "1") := rfl
      rw [hq] at hmem
      have h2 := (encodeVals_perm _).mem_iff.1 hmem
      rw [mem_flattenVals] at h2
      obtain ⟨l, hl, h0⟩ := h2
      have hl1 := mem_setVal_self (nodupKeys_toValues _) hl
      subst hl1
      simp at h0

/-! ## Lemmas for the favorites upsert -/

/-- The bound the `UNIQUE(type, metadata_key)` constraint maintains: at
most one row per key pair. -/
def FavKeyUnique (table : List FavoriteRow) : Prop :=
  ∀ t k, (table.filter (fun r => sameFavKey r t k)).length ≤ 1

theorem sameFavKey_name_update (r : FavoriteRow) (n t k t' k' : String) :
    sameFavKey (if sameFavKey r t k then { r with name := n } else r) t' k'
      = sameFavKey r t' k' := by
  by_cases h : sameFavKey r t k = true
  · rw [if_pos h]
    rfl
  · rw [if_neg h]

theorem filter_map_comm_point {α : Type} (l : List α) (f : α → α) (p : α → Bool)
    (h : ∀ r, p (f r) = p r) :
    (l.map f).filter p = (l.filter p).map f := by
  induction l with
  | nil => rfl
  | cons a l ih =>
    by_cases hp : p a <;> simp [List.filter_cons, h, hp, ih]

theorem favoritesAdd_unique (table : List FavoriteRow) (it : FavoriteRow)
    (hu : FavKeyUnique table) : FavKeyUnique (favoritesAdd table it) := by
  intro t k
  unfold favoritesAdd
  by_cases hany : table.any (fun r => sameFavKey r it.type it.metadataKey)
  · rw [if_pos hany,
      filter_map_comm_point _ _ _ (fun r => sameFavKey_name_update r it.name it.type it.metadataKey t k),
      List.length_map]
    exact hu t k
  · rw [if_neg hany, List.filter_append]
    by_cases hit : sameFavKey it t k
    · have htk : t = it.type ∧ k = it.metadataKey := by
        simp [sameFavKey] at hit
        exact ⟨hit.1.symm, hit.2.symm⟩
      have hnil : table.filter (fun r => sameFavKey r t k) = [] := by
        rw [List.filter_eq_nil_iff]
        intro r hr hc
        rw [Bool.not_eq_true, List.any_eq_false] at hany
        exact hany r hr (by rw [htk.1, htk.2] at hc; exact hc)
      simp [hnil, hit]
    · have : ([it].filter (fun r => sameFavKey r t k)) = [] := by
        simp [List.filter, hit]
      rw [this, List.append_nil]
      exact hu t k

theorem foldl_favoritesAdd_unique (ops : List FavoriteRow) (init : List FavoriteRow)
    (hu : FavKeyUnique init) : FavKeyUnique (ops.foldl favoritesAdd init) := by
  induction ops generalizing init with
  | nil => exact hu
  | cons op ops ih => exact ih _ (favoritesAdd_unique init op hu)

theorem favKeyUnique_nil : FavKeyUnique [] := by
  intro t k
  simp

/-- Claim C9: favorites are unique by `(type, metadata_key)` — after any
sequence of adds starting from the empty table, adding an item whose key
pair is already stored leaves exactly one stored row for that pair, whose
name is the newly supplied one (the row is updated, not appended). -/
theorem favorites_add_dedup (ops : List FavoriteRow) (it : FavoriteRow)
    (hmem : ((ops.foldl favoritesAdd []).any
        (fun r => sameFavKey r it.type it.metadataKey)) = true) :
    (favoritesAdd (ops.foldl favoritesAdd []) it).filter
        (fun r => sameFavKey r it.type it.metadataKey)
      = [{ name := it.name, type := it.type, metadataKey := it.metadataKey }] := by
  have hu : FavKeyUnique (ops.foldl favoritesAdd []) :=
    foldl_favoritesAdd_unique ops [] favKeyUnique_nil
  set s := ops.foldl favoritesAdd [] with hs
  unfold favoritesAdd
  rw [if_pos hmem,
    filter_map_comm_point _ _ _
      (fun r => sameFavKey_name_update r it.name it.type it.metadataKey it.type it.metadataKey)]
  obtain ⟨r0, hr0mem, hr0p⟩ := List.any_eq_true.1 hmem
  have hlen := hu it.type it.metadataKey
  have hr0f : r0 ∈ s.filter (fun r => sameFavKey r it.type it.metadataKey) :=
    List.mem_filter.2 ⟨hr0mem, hr0p⟩
  cases hf : s.filter (fun r => sameFavKey r it.type it.metadataKey) with
  | nil => rw [hf] at hr0f; exact absurd hr0f (List.not_mem_nil _)
  | cons a l =>
    cases l with
    | cons b l2 => rw [hf] at hlen; simp at hlen
    | nil =>
      have ha : sameFavKey a it.type it.metadataKey := by
        have : a ∈ s.filter (fun r => sameFavKey r it.type it.metadataKey) := by
          rw [hf]; exact List.mem_cons_self a []
        exact (List.mem_filter.1 this).2
      have hat : a.type = it.type ∧ a.metadataKey = it.metadataKey := by
        simp [sameFavKey] at ha
        exact ha
      rw [List.map_cons, List.map_nil, if_pos ha]
      cases a
      simp_all

/-- Witness for C9: adding ("New", artist, 123) after an earlier
("Old", artist, 123) leaves exactly one artist/123 row, named "New". -/
theorem favorites_add_dedup_witness :
    (favoritesAdd ([{ name := "Old", type := "artist", metadataKey := "123" }].foldl
        favoritesAdd []) { name := "New", type := "artist", metadataKey := "123" }).filter
        (fun r => sameFavKey r "artist" "123")
      = [{ name := "New", type := "artist", metadataKey := "123" }] :=
  favorites_add_dedup [{ name := "Old", type := "artist", metadataKey := "123" }]
    { name := "New", type := "artist", metadataKey := "123" } (by decide)

/-- Claim C10: when the input string does not parse as a URL,
`ApplyShuffle` returns the original input unchanged together with the parse
error (never a partially rewritten URL), and `SendPlaybackURL` proceeds
with the unmodified URL — the shuffle request is silently not applied and
the host rewrite and send still happen. -/
theorem applyShuffle_parse_error (parse : String → Option GoURL) (s : String)
    (b : Bool) (ip : String) (h : parse s = none) :
    applyShuffleStr parse s b = (s, true)
    ∧ sendPlaybackRequestURL parse ip s b = rewriteLocal ip s := by
  constructor
  · simp [applyShuffleStr, h]
  · simp [sendPlaybackRequestURL, applyShuffleStr, h]

/-- A stand-in for `url.Parse` on inputs it rejects (such as a bracketed
host missing its closing bracket). -/
def rejectingParse : String → Option GoURL := fun _ => none

/-- Witness for C10. -/
theorem applyShuffle_parse_error_witness :
    applyShuffleStr rejectingParse "http://[::1" true = ("http://[::1", true)
    ∧ sendPlaybackRequestURL rejectingParse "10.0.0.5" "http://[::1" true
        = rewriteLocal "10.0.0.5" "http://[::1" :=
  applyShuffle_parse_error rejectingParse "http://[::1" true "10.0.0.5" rfl

/-- A built playback URL carrying one ordinary parameter and a stray
`shuffle=0`. -/
def uShuffle : GoURL :=
  { scheme := "https", host := "listen.plex.tv",
    path := "/player/playback/playMedia",
    query := [("x", "1"), ("shuffle", "0")] }

/-- Witness for C8 at a concrete URL. -/
theorem applyShuffle_roundtrip_witness :
    ((ApplyShuffle (ApplyShuffle uShuffle true) false).query).Perm
        (uShuffle.query.filter (fun p => !(p.1 == "shuffle")))
    ∧ ((ApplyShuffle (ApplyShuffle uShuffle true) true).query).filter
        (fun p => p.1 == "shuffle") = [("shuffle", "1")]
    ∧ ∀ b : Bool, ("shuffle", "0") ∉ (ApplyShuffle uShuffle b).query :=
  applyShuffle_roundtrip uShuffle
